import Mathlib

/-!
Verification development for the WhatsApp-to-calendar event bot
(`quickstart.py`).  The Python functions are embedded shallowly:
strings are modelled as `String` / `List Char`, the OpenAI call and the
Google-Calendar insert are modelled as external collaborators, and
`datetime.strptime` / `timedelta` arithmetic are embedded as executable
functions on a record of calendar fields.
-/

namespace GCalBot

/-! ### Time normalizer (`normalize_time_format`)

Python source:
```
time_str = time_str.lower().replace('.', ':')
if len(time_str) == 4 and time_str[-2:] in ['am', 'pm']:
    time_str = time_str[:-2] + ':00' + time_str[-2:]
if len(time_str) == 5 and time_str[-2:] in ['am', 'pm']:
    time_str = time_str[:-2] + 'm'
if len(time_str) == 6 and time_str[-2:] in ['am', 'pm'] and ':' not in time_str:
    time_str = time_str[:1] + ':' + time_str[1:]
if len(time_str) == 7 and time_str[-2:] in ['am', 'pm'] and ':' not in time_str:
    time_str = time_str[:2] + ':' + time_str[2:]
return time_str
```
Each Python `if` mutates the same variable, so the four guards run in
sequence on the successively updated string. -/

/-- `s.lower()` (ASCII, as the inputs here are ASCII). -/
def pyLower (l : List Char) : List Char := l.map Char.toLower

/-- `s.replace('.', ':')` — a single-character replace is a character map. -/
def pyDotToColon (l : List Char) : List Char :=
  l.map fun c => if c = '.' then ':' else c

/-- `s[-2:] in ['am', 'pm']` (for `len(s) < 2` Python's `s[-2:]` is all of
`s`, matching `List.drop` with truncated subtraction). -/
def endsAmPm (l : List Char) : Bool :=
  decide (l.drop (l.length - 2) = ['a', 'm']) ||
  decide (l.drop (l.length - 2) = ['p', 'm'])

/-- `if len(t) == 4 and t[-2:] in ['am','pm']: t = t[:-2] + ':00' + t[-2:]` -/
def normStep4 (t : List Char) : List Char :=
  if t.length = 4 ∧ endsAmPm t = true then
    t.take (t.length - 2) ++ [':', '0', '0'] ++ t.drop (t.length - 2)
  else t

/-- `if len(t) == 5 and t[-2:] in ['am','pm']: t = t[:-2] + 'm'` -/
def normStep5 (t : List Char) : List Char :=
  if t.length = 5 ∧ endsAmPm t = true then
    t.take (t.length - 2) ++ ['m']
  else t

/-- `':' in t` -/
def hasColon : List Char → Bool
  | [] => false
  | c :: cs => if c = ':' then true else hasColon cs

/-- `if len(t) == 6 and t[-2:] in ['am','pm'] and ':' not in t: t = t[:1] + ':' + t[1:]` -/
def normStep6 (t : List Char) : List Char :=
  if t.length = 6 ∧ endsAmPm t = true ∧ hasColon t = false then
    t.take 1 ++ ':' :: t.drop 1
  else t

/-- `if len(t) == 7 and t[-2:] in ['am','pm'] and ':' not in t: t = t[:2] + ':' + t[2:]` -/
def normStep7 (t : List Char) : List Char :=
  if t.length = 7 ∧ endsAmPm t = true ∧ hasColon t = false then
    t.take 2 ++ ':' :: t.drop 2
  else t

/-- Character-list body of `normalize_time_format`. -/
def normalizeChars (s : List Char) : List Char :=
  normStep7 (normStep6 (normStep5 (normStep4 (pyDotToColon (pyLower s)))))

/-- `normalize_time_format` from `quickstart.py`. -/
def normalize_time_format (s : String) : String :=
  ⟨normalizeChars s.data⟩

/-- An already-canonical time string: `H:MM` (one- or two-digit hour,
two-digit minutes) followed by a lowercase meridiem `am`/`pm`. -/
def isCanonicalTime (l : List Char) : Bool :=
  match l with
  | [h, c, m1, m2, p, m] =>
    h.isDigit && c = ':' && m1.isDigit && m2.isDigit && (p = 'a' || p = 'p') && m = 'm'
  | [h1, h2, c, m1, m2, p, m] =>
    h1.isDigit && h2.isDigit && c = ':' && m1.isDigit && m2.isDigit &&
      (p = 'a' || p = 'p') && m = 'm'
  | _ => false

/-! ### List-of-characters parsing primitives

Shared by the embeddings of `re.split`, `re`-style matching and
`str.split(sep, 1)`. -/

/-- Match a literal character sequence at the head of the input, returning
the remainder on success. -/
def expectLit : List Char → List Char → Option (List Char)
  | [], r => some r
  | _ :: _, [] => none
  | p :: ps, c :: cs => if c = p then expectLit ps cs else none

/-- Greedily take the leading run of ASCII digits (`\d+` without the
non-emptiness requirement): returns (digits, rest). -/
def takeDigits : List Char → List Char × List Char
  | [] => ([], [])
  | c :: cs =>
    if c.isDigit then ((c :: (takeDigits cs).1), (takeDigits cs).2)
    else ([], c :: cs)

/-- `\d+`: at least one digit, greedy. -/
def parseDigits1 (l : List Char) : Option (List Char × List Char) :=
  if (takeDigits l).1.isEmpty then none else some (takeDigits l)

/-- Match one given literal character. -/
def parseChar (x : Char) : List Char → Option (List Char)
  | [] => none
  | c :: cs => if c = x then some cs else none

/-- Python's `\s` / `str.strip` whitespace on ASCII input. -/
def pyIsSpace (c : Char) : Bool :=
  c = ' ' || c = '\t' || c = '\n' || c = '\r' || c = '\x0b' || c = '\x0c'

/-- `s.strip()` (ASCII whitespace). -/
def pyStrip (l : List Char) : List Char :=
  ((l.dropWhile pyIsSpace).reverse.dropWhile pyIsSpace).reverse

def pyStripStr (s : String) : String := ⟨pyStrip s.data⟩

/-- `s.upper()` (ASCII, as the inputs here are ASCII). -/
def pyUpper (s : String) : String := ⟨s.data.map Char.toUpper⟩

/-- `s.split('\n')`: split at every newline, keeping empty pieces. -/
def splitOnNl : List Char → List (List Char)
  | [] => [[]]
  | c :: cs =>
    match splitOnNl cs with
    | [] => [[]]
    | r :: rs => if c = '\n' then [] :: r :: rs else (c :: r) :: rs

/-! ### Delegated extraction (`parse_event_details_with_openai`)

The OpenAI chat call is an external collaborator; its outcome is modelled
as a sum: a textual reply, a rate-limit failure, or an invalid-request
failure (the two exception classes the Python code catches). -/

/-- Outcome of the external `openai.ChatCompletion.create` call. -/
inductive ApiOutcome where
  | reply (text : String)
  | rateLimit
  | invalidRequest (msg : String)
  deriving DecidableEq

/-- `line.split(': ', 1)` when `': ' in line`: split at the first
occurrence of the separator; `none` when the separator does not occur. -/
def splitFirstOn (sep : List Char) : List Char → Option (List Char × List Char)
  | [] => none
  | c :: cs =>
    match expectLit sep (c :: cs) with
    | some rest => some ([], rest)
    | none =>
      match splitFirstOn sep cs with
      | some (pre, post) => some (c :: pre, post)
      | none => none

/-- Python `dict` assignment `d[k] = v`: overwrite in place if the key is
present, else append (insertion order preserved). -/
def dictInsert (d : List (String × String)) (k v : String) : List (String × String) :=
  if d.any (fun p => p.1 = k) then
    d.map fun p => if p.1 = k then (k, v) else p
  else d ++ [(k, v)]

/-- Parse the collaborator's reply: strip it, split it into lines, and turn
every line containing `": "` into one mapping entry (key = text before the
first `": "`, value = the rest). -/
def parse_reply (result : String) : List (String × String) :=
  (splitOnNl (pyStrip result.data)).foldl
    (fun details line =>
      match splitFirstOn ": ".data line with
      | some (k, v) => dictInsert details ⟨k⟩ ⟨v⟩
      | none => details)
    []

/-- `parse_event_details_with_openai` from `quickstart.py`, as a function of
the collaborator outcome.  Returns the extracted mapping together with the
list of diagnostic lines printed (`print` calls in the `except` clauses). -/
def parse_event_details_with_openai (o : ApiOutcome) :
    List (String × String) × List String :=
  match o with
  | .reply text => (parse_reply text, [])
  | .rateLimit => ([], ["Rate limit exceeded. Please wait and try again later."])
  | .invalidRequest e => ([], ["Invalid request error: " ++ e])

/-! ### `datetime.strptime` for the two formats used

`create_event` parses `"{event_date} {event_time.upper()}"` first with
`"%m.%d.%y %I:%M%p"`, then with `"%m.%d.%y %I%p"`.  CPython's `_strptime`
compiles each directive to a regex (with `re.IGNORECASE`, whitespace in the
format becoming `\s+`) and requires the whole string to be consumed:
  `%m`, `%I` → `1[0-2]|0[1-9]|[1-9]`;  `%d` → `3[01]|[12]\d|0[1-9]|[1-9]`;
  `%y` → `\d\d`;  `%M` → `[0-5]\d|\d`;  `%p` → `AM|PM` (case-insensitive).
`%y ≤ 68` maps to `2000 + y`, else `1900 + y`; `%I`+`%p` convert to a
24-hour value; the `datetime` constructor then validates the day against
the month length. -/

/-- Naive `datetime` value (second and microsecond are always zero here). -/
structure PyDateTime where
  year : Nat
  month : Nat
  day : Nat
  hour : Nat
  minute : Nat
  deriving DecidableEq

def digitVal (c : Char) : Nat := c.toNat - 48

/-- Regex alternation `1[0-2]|0[1-9]|[1-9]` (used by both `%m` and `%I`). -/
def parse1to12 : List Char → Option (Nat × List Char)
  | [] => none
  | c₁ :: rest =>
    if c₁ = '1' then
      match rest with
      | c₂ :: rest₂ =>
        if '0' ≤ c₂ ∧ c₂ ≤ '2' then some (10 + digitVal c₂, rest₂)
        else some (1, rest)
      | [] => some (1, [])
    else if c₁ = '0' then
      match rest with
      | c₂ :: rest₂ =>
        if '1' ≤ c₂ ∧ c₂ ≤ '9' then some (digitVal c₂, rest₂) else none
      | [] => none
    else if '2' ≤ c₁ ∧ c₁ ≤ '9' then some (digitVal c₁, rest)
    else none

/-- Regex alternation `3[01]|[12]\d|0[1-9]|[1-9]` (`%d`). -/
def parseDay : List Char → Option (Nat × List Char)
  | [] => none
  | c₁ :: rest =>
    if c₁ = '3' then
      match rest with
      | c₂ :: rest₂ =>
        if c₂ = '0' ∨ c₂ = '1' then some (30 + digitVal c₂, rest₂)
        else some (3, rest)
      | [] => some (3, [])
    else if c₁ = '1' ∨ c₁ = '2' then
      match rest with
      | c₂ :: rest₂ =>
        if c₂.isDigit then some (10 * digitVal c₁ + digitVal c₂, rest₂)
        else some (digitVal c₁, rest)
      | [] => some (digitVal c₁, [])
    else if c₁ = '0' then
      match rest with
      | c₂ :: rest₂ =>
        if '1' ≤ c₂ ∧ c₂ ≤ '9' then some (digitVal c₂, rest₂) else none
      | [] => none
    else if '4' ≤ c₁ ∧ c₁ ≤ '9' then some (digitVal c₁, rest)
    else none

/-- `\d\d` (`%y`). -/
def parseYear2 : List Char → Option (Nat × List Char)
  | c₁ :: c₂ :: r =>
    if c₁.isDigit ∧ c₂.isDigit then some (10 * digitVal c₁ + digitVal c₂, r)
    else none
  | _ => none

/-- `[0-5]\d|\d` (`%M`). -/
def parseMinute : List Char → Option (Nat × List Char)
  | [] => none
  | c₁ :: rest =>
    if '0' ≤ c₁ ∧ c₁ ≤ '5' then
      match rest with
      | c₂ :: rest₂ =>
        if c₂.isDigit then some (10 * digitVal c₁ + digitVal c₂, rest₂)
        else some (digitVal c₁, rest)
      | [] => some (digitVal c₁, [])
    else if c₁.isDigit then some (digitVal c₁, rest)
    else none

/-- `AM|PM`, case-insensitive (`%p`); `true` means PM. -/
def parseAmPm : List Char → Option (Bool × List Char)
  | c₁ :: c₂ :: r =>
    if (c₁ = 'A' ∨ c₁ = 'a') ∧ (c₂ = 'M' ∨ c₂ = 'm') then some (false, r)
    else if (c₁ = 'P' ∨ c₁ = 'p') ∧ (c₂ = 'M' ∨ c₂ = 'm') then some (true, r)
    else none
  | _ => none

/-- `\s+`: at least one whitespace character, greedy. -/
def parseSpaces1 : List Char → Option (List Char)
  | [] => none
  | c :: cs => if pyIsSpace c then some (cs.dropWhile pyIsSpace) else none

def isLeapYear (y : Nat) : Bool :=
  (y % 4 = 0 && y % 100 ≠ 0) || y % 400 = 0

def daysInMonth (y m : Nat) : Nat :=
  if m = 2 then (if isLeapYear y then 29 else 28)
  else if m = 4 ∨ m = 6 ∨ m = 9 ∨ m = 11 then 30
  else 31

/-- `%I` + `%p` to 24-hour, `%y` pivot, and the `datetime` constructor's
day-of-month validation. -/
def mkDateTime (yy mo dy h12 : Nat) (isPM : Bool) (mi : Nat) : Option PyDateTime :=
  let year := if yy ≤ 68 then 2000 + yy else 1900 + yy
  let hour :=
    if isPM then (if h12 = 12 then 12 else h12 + 12)
    else (if h12 = 12 then 0 else h12)
  if dy ≤ daysInMonth year mo then some ⟨year, mo, dy, hour, mi⟩ else none

/-- `datetime.strptime(s, "%m.%d.%y %I:%M%p")`. -/
def strptimeMinute (s : List Char) : Option PyDateTime :=
  match parse1to12 s with
  | none => none
  | some (mo, r1) =>
    match parseChar '.' r1 with
    | none => none
    | some r2 =>
      match parseDay r2 with
      | none => none
      | some (dy, r3) =>
        match parseChar '.' r3 with
        | none => none
        | some r4 =>
          match parseYear2 r4 with
          | none => none
          | some (yy, r5) =>
            match parseSpaces1 r5 with
            | none => none
            | some r6 =>
              match parse1to12 r6 with
              | none => none
              | some (h12, r7) =>
                match parseChar ':' r7 with
                | none => none
                | some r8 =>
                  match parseMinute r8 with
                  | none => none
                  | some (mi, r9) =>
                    match parseAmPm r9 with
                    | none => none
                    | some (pm, r10) =>
                      if r10 = [] then mkDateTime yy mo dy h12 pm mi else none

/-- `datetime.strptime(s, "%m.%d.%y %I%p")`. -/
def strptimeHour (s : List Char) : Option PyDateTime :=
  match parse1to12 s with
  | none => none
  | some (mo, r1) =>
    match parseChar '.' r1 with
    | none => none
    | some r2 =>
      match parseDay r2 with
      | none => none
      | some (dy, r3) =>
        match parseChar '.' r3 with
        | none => none
        | some r4 =>
          match parseYear2 r4 with
          | none => none
          | some (yy, r5) =>
            match parseSpaces1 r5 with
            | none => none
            | some r6 =>
              match parse1to12 r6 with
              | none => none
              | some (h12, r7) =>
                match parseAmPm r7 with
                | none => none
                | some (pm, r8) =>
                  if r8 = [] then mkDateTime yy mo dy h12 pm 0 else none

/-- Advance a date by one calendar day. -/
def nextDay (dt : PyDateTime) : PyDateTime :=
  if dt.day < daysInMonth dt.year dt.month then { dt with day := dt.day + 1 }
  else if dt.month < 12 then { dt with month := dt.month + 1, day := 1 }
  else { dt with year := dt.year + 1, month := 1, day := 1 }

def addDays : PyDateTime → Nat → PyDateTime
  | dt, 0 => dt
  | dt, n + 1 => addDays (nextDay dt) n

/-- `dt + datetime.timedelta(minutes=k)` (non-negative `k`). -/
def addMinutes (dt : PyDateTime) (k : Nat) : PyDateTime :=
  let total := dt.hour * 60 + dt.minute + k
  addDays { dt with hour := total % 1440 / 60, minute := total % 60 } (total / 1440)

/-- Left-pad to two digits. -/
def pad2 (n : Nat) : String := if n < 10 then "0" ++ toString n else toString n

/-- `datetime.isoformat()` for second = microsecond = 0. -/
def isoformat (dt : PyDateTime) : String :=
  toString dt.year ++ "-" ++ pad2 dt.month ++ "-" ++ pad2 dt.day ++ "T" ++
    pad2 dt.hour ++ ":" ++ pad2 dt.minute ++ ":00"

/-! ### Event builder (`create_event`)

The Google-Calendar `service.events().insert(...)` call is the external
gateway; `create_event` here returns the event body handed to it, or
`none` when the Python function returns early (incomplete fields, or both
`strptime` attempts failing) and therefore makes no gateway call. -/

structure EventDateTime where
  dateTime : String
  timeZone : String
  deriving DecidableEq

/-- The event body built by `create_event` and passed to the gateway. -/
structure GCalEvent where
  summary : String
  location : String
  description : String
  startTime : EventDateTime
  endTime : EventDateTime
  remindersUseDefault : Bool
  reminderOverrides : List (String × Nat)
  deriving DecidableEq

def required_fields : List String :=
  ["Event Date", "Event Time", "Phone", "Name", "Address", "City", "State",
   "Zip Code", "Description"]

/-- `all(field in parsed_details for field in required_fields)`. -/
def nineRequiredPresent (parsed_details : List (String × String)) : Bool :=
  required_fields.all fun f => (parsed_details.lookup f).isSome

/-- The `event = {...}` dictionary literal in `create_event`. -/
def mkGCal (event_datetime : PyDateTime)
    (phone name address city state zip_code description : String) : GCalEvent :=
  { summary := "ros " ++ phone ++ " " ++ name
    location := address ++ ", " ++ city ++ ", " ++ state ++ " " ++ zip_code
    description := description
    startTime := ⟨isoformat event_datetime, "America/Los_Angeles"⟩
    endTime := ⟨isoformat (addMinutes event_datetime 60), "America/Los_Angeles"⟩
    remindersUseDefault := false
    reminderOverrides := [("popup", 10)] }

/-- `event_datetime_str = f"{event_date} {event_time.upper()}"` with
`event_time = normalize_time_format(parsed_details["Event Time"])`. -/
def event_datetime_string (event_date event_time_raw : String) : String :=
  event_date ++ " " ++ pyUpper (normalize_time_format event_time_raw)

/-- Date/time composition and double `strptime` attempt, then the event
body (lines 95–128 of `quickstart.py`). -/
def build_event (event_date event_time_raw phone name address city state
    zip_code description : String) : Option GCalEvent :=
  match strptimeMinute (event_datetime_string event_date event_time_raw).data with
  | some dt => some (mkGCal dt phone name address city state zip_code description)
  | none =>
    match strptimeHour (event_datetime_string event_date event_time_raw).data with
    | some dt => some (mkGCal dt phone name address city state zip_code description)
    | none => none

/-- `create_event` from `quickstart.py`: `none` models an early `return`
(no gateway call). -/
def create_event (parsed_details : List (String × String)) : Option GCalEvent :=
  if nineRequiredPresent parsed_details then
    match parsed_details.lookup "Event Date", parsed_details.lookup "Event Time",
          parsed_details.lookup "Phone", parsed_details.lookup "Name",
          parsed_details.lookup "Address", parsed_details.lookup "City",
          parsed_details.lookup "State", parsed_details.lookup "Zip Code",
          parsed_details.lookup "Description" with
    | some event_date, some event_time, some phone, some name, some address,
      some city, some state, some zip_code, some description =>
      build_event event_date event_time phone name address city state
        zip_code description
    | _, _, _, _, _, _, _, _, _ => none
  else none

/-! ### Block splitter (`main`, lines 157–159)

`re.split(r'(\d+\.\d+\.\d+ Booked)', event_details)` with a capturing
group returns `[before₀, anchor₁, between₁, …, anchorₖ, afterₖ]`; the
list comprehension then glues each anchor to the text following it. -/

def bookedLit : List Char := [' ', 'B', 'o', 'o', 'k', 'e', 'd']

/-- Match the anchor regex `\d+\.\d+\.\d+ Booked` at the head of the
input; returns (matched text, remainder).  The pattern is deterministic:
each greedy `\d+` is followed by a non-digit literal, so no backtracking
arises. -/
def matchAnchorAt (l : List Char) : Option (List Char × List Char) :=
  (parseDigits1 l).bind fun p1 =>
  (parseChar '.' p1.2).bind fun r2 =>
  (parseDigits1 r2).bind fun p2 =>
  (parseChar '.' p2.2).bind fun r4 =>
  (parseDigits1 r4).bind fun p3 =>
  (expectLit bookedLit p3.2).bind fun r6 =>
  some (p1.1 ++ '.' :: (p2.1 ++ '.' :: (p3.1 ++ bookedLit)), r6)

/-- Leftmost match of the anchor regex: (text before, match, text after). -/
def findAnchor : List Char → Option (List Char × List Char × List Char)
  | [] => none
  | c :: cs =>
    match matchAnchorAt (c :: cs) with
    | some (m, r) => some ([], m, r)
    | none =>
      match findAnchor cs with
      | some (b, m, r) => some (c :: b, m, r)
      | none => none

/-- `re.split` with the capturing anchor group, fuelled for termination
(each recursive call is on a strict suffix; the wrapper supplies enough
fuel for the branch never to be taken). -/
def reSplitAnchorF : Nat → List Char → List (List Char)
  | 0, l => [l]
  | fuel + 1, l =>
    match findAnchor l with
    | none => [l]
    | some (b, m, r) => b :: m :: reSplitAnchorF fuel r

/-- `re.split(r'(\d+\.\d+\.\d+ Booked)', l)`. -/
def reSplitAnchor (l : List Char) : List (List Char) :=
  reSplitAnchorF (l.length + 1) l

/-- Number of (leftmost, non-overlapping) occurrences of the anchor
pattern in the input, fuelled like `reSplitAnchorF`. -/
def countAnchorsF : Nat → List Char → Nat
  | 0, _ => 0
  | fuel + 1, l =>
    match findAnchor l with
    | none => 0
    | some (_, _, r) => countAnchorsF fuel r + 1

def countAnchors (l : List Char) : Nat := countAnchorsF (l.length + 1) l

/-- `[''.join(parts[i:i+2]) for i in range(1, len(parts), 2)]`: join
consecutive pairs (a final unpaired element would be kept alone, though
`re.split` always returns an odd-length list so this never happens). -/
def pairJoin : List (List Char) → List (List Char)
  | a :: b :: rest => (a ++ b) :: pairJoin rest
  | [a] => [a]
  | [] => []

/-- Lines 157–159 of `main`: split, and if more than one part resulted,
re-attach each anchor to the text that follows it. -/
def event_blocks (l : List Char) : List (List Char) :=
  if (reSplitAnchor l).length > 1 then pairJoin ((reSplitAnchor l).drop 1)
  else reSplitAnchor l

def joinAll (ls : List (List Char)) : List Char := ls.foldr (· ++ ·) []

/-! ### Per-block driver loop (`main`, lines 162–165)

`oracle` maps the text sent to the collaborator to the collaborator's
outcome.  The returned list contains the event bodies handed to the
gateway (one `insert` call each). -/

/-- One iteration of the `for block in event_blocks` loop: call the
extractor on the stripped block; if the returned dict is truthy
(non-empty), run `create_event`.  The result is the gateway call made for
this block, if any. -/
def processBlock1 (oracle : String → ApiOutcome) (block : String) :
    Option GCalEvent :=
  if ((parse_event_details_with_openai (oracle (pyStripStr block))).1).isEmpty
  then none
  else create_event ((parse_event_details_with_openai (oracle (pyStripStr block))).1)

def processBlocks (oracle : String → ApiOutcome) : List String → List GCalEvent
  | [] => []
  | block :: rest =>
    match processBlock1 oracle block with
    | some ev => ev :: processBlocks oracle rest
    | none => processBlocks oracle rest

/-- The whole post-authentication pipeline of `main` on one input line. -/
def runPipeline (oracle : String → ApiOutcome) (input : String) : List GCalEvent :=
  processBlocks oracle ((event_blocks (pyStrip input.data)).map fun b => (⟨b⟩ : String))

/-! ### Concrete sample data (spec §8 scenario) -/

def sampleDetails : List (String × String) :=
  [("Event Date", "6.4.24"), ("Event Time", "1pm"), ("Phone", "15104144644"),
   ("Name", "John Hornung"), ("Address", "2835 Buena Vista Way"),
   ("City", "Berkeley"), ("State", "CA"), ("Zip Code", "94708"),
   ("Description", "Roof replacement")]

def sampleDateTime : PyDateTime := ⟨2024, 6, 4, 13, 0⟩

def sampleEvent : GCalEvent :=
  mkGCal sampleDateTime "15104144644" "John Hornung" "2835 Buena Vista Way"
    "Berkeley" "CA" "94708" "Roof replacement"

end GCalBot

namespace GCalBot

theorem sanity_530pm : normalize_time_format "530pm" = "530m" := by decide

theorem sanity_1pm : normalize_time_format "1pm" = "1pm" := by decide

theorem sanity_1230pm : normalize_time_format "1230pm" = "1:230pm" := by decide

theorem sanity_canon : normalize_time_format "5:30pm" = "5:30pm" := by decide

theorem sanity_canon7 : normalize_time_format "12:00am" = "12:00am" := by decide

theorem sanity_12pm : normalize_time_format "12pm" = "12:00pm" := by decide

theorem sanity_strptime1 : strptimeMinute ("6.4.24 1PM".data) = none := by decide

theorem sanity_strptime2 :
    strptimeHour ("6.4.24 1PM".data) = some ⟨2024, 6, 4, 13, 0⟩ := by decide

theorem sanity_create :
    create_event sampleDetails = some sampleEvent := by decide

theorem sanity_iso : isoformat sampleDateTime = "2024-06-04T13:00:00" := by decide

theorem sanity_iso2 :
    isoformat (addMinutes sampleDateTime 60) = "2024-06-04T14:00:00" := by decide

theorem sanity_split :
    event_blocks ("1.2.3 Booked A 4.5.6 Booked B".data) =
      ["1.2.3 Booked A ".data, "4.5.6 Booked B".data] := by decide

theorem sanity_split2 :
    event_blocks ("junk 1.2.3 Booked A".data) = ["1.2.3 Booked A".data] := by decide

theorem sanity_split3 :
    event_blocks ("no anchors here".data) = ["no anchors here".data] := by decide

theorem sanity_reply :
    parse_reply "Event Date: 6.4.24\nPhone: 123" =
      [("Event Date", "6.4.24"), ("Phone", "123")] := by decide

/-! ### Character facts used by the normalizer proofs -/

theorem toLower_of_isDigit (c : Char) (h : c.isDigit = true) : c.toLower = c := by
  simp only [Char.isDigit, Bool.and_eq_true, decide_eq_true_eq] at h
  obtain ⟨hge, hle⟩ := h
  rw [ge_iff_le, UInt32.le_def, BitVec.le_def] at hge
  rw [UInt32.le_def, BitVec.le_def] at hle
  unfold Char.toLower
  rw [if_neg]
  rintro ⟨h1, _⟩
  simp only [Char.toNat] at h1
  have hv : c.val.toNat = c.val.toBitVec.toNat := rfl
  have h48 : (48 : UInt32).toBitVec.toNat = 48 := rfl
  have h57 : (57 : UInt32).toBitVec.toNat = 57 := rfl
  omega

theorem ne_dot_of_isDigit (c : Char) (h : c.isDigit = true) : ¬(c = '.') := by
  rintro rfl
  simp at h

/-! ### C8: the normalizer is idempotent on canonical `H:MM` + meridiem -/

/-- C8.  The Time Normalizer is idempotent on already-canonical time
strings of the form `H:MM` followed by a lowercase two-letter meridiem:
applying it to such a string returns the string unchanged. -/
theorem normalize_idempotent_canonical (l : List Char)
    (h : isCanonicalTime l = true) : normalizeChars l = l := by
  have cln : (':' : Char).toLower = ':' := by decide
  have aln : ('a' : Char).toLower = 'a' := by decide
  have pln : ('p' : Char).toLower = 'p' := by decide
  have mln : ('m' : Char).toLower = 'm' := by decide
  rcases l with _ | ⟨a, _ | ⟨b, _ | ⟨c, _ | ⟨d, _ | ⟨e, _ | ⟨f, _ | ⟨g, t⟩⟩⟩⟩⟩⟩⟩
  · simp [isCanonicalTime] at h
  · simp [isCanonicalTime] at h
  · simp [isCanonicalTime] at h
  · simp [isCanonicalTime] at h
  · simp [isCanonicalTime] at h
  · simp [isCanonicalTime] at h
  · -- length 6: `H:MMxm`
    simp only [isCanonicalTime, Bool.and_eq_true, decide_eq_true_eq,
      Bool.or_eq_true] at h
    obtain ⟨⟨⟨⟨⟨ha, hb⟩, hc⟩, hd⟩, he⟩, hf⟩ := h
    subst hb hf
    rcases he with he | he <;> subst he <;>
      simp [normalizeChars, pyLower, pyDotToColon, normStep4, normStep5,
        normStep6, normStep7, endsAmPm, hasColon, toLower_of_isDigit a ha,
        toLower_of_isDigit c hc, toLower_of_isDigit d hd, cln, aln, pln, mln,
        ne_dot_of_isDigit a ha, ne_dot_of_isDigit c hc, ne_dot_of_isDigit d hd]
  · rcases t with _ | ⟨x, t⟩
    · -- length 7: `HH:MMxm`
      simp only [isCanonicalTime, Bool.and_eq_true, decide_eq_true_eq,
        Bool.or_eq_true] at h
      obtain ⟨⟨⟨⟨⟨⟨ha, hb⟩, hc⟩, hd⟩, he⟩, hf⟩, hg⟩ := h
      subst hc hg
      rcases hf with hf | hf <;> subst hf <;>
        simp [normalizeChars, pyLower, pyDotToColon, normStep4, normStep5,
          normStep6, normStep7, endsAmPm, hasColon, toLower_of_isDigit a ha,
          toLower_of_isDigit b hb, toLower_of_isDigit d hd,
          toLower_of_isDigit e he, cln, aln, pln, mln,
          ne_dot_of_isDigit a ha, ne_dot_of_isDigit b hb,
          ne_dot_of_isDigit d hd, ne_dot_of_isDigit e he]
    · simp [isCanonicalTime] at h

/-- Witness for C8 at the concrete canonical strings of the spec. -/
theorem normalize_idempotent_canonical_witness :
    isCanonicalTime "5:30pm".data = true ∧
      normalizeChars "5:30pm".data = "5:30pm".data :=
  ⟨by decide, normalize_idempotent_canonical "5:30pm".data (by decide)⟩

/-! ### C1: what the normalizer actually returns on the spec's examples

The claim (and the comment on the function itself) says `"530pm"`
normalizes to `"5:30pm"` and `"1pm"` to `"1:00pm"`.  The code disagrees:
the length-5 branch chops the meridiem and appends a bare `'m'`
(`"530pm"` → `"530m"`); a 3-character token hits no branch at all
(`"1pm"` → `"1pm"`); and the length-6 branch puts the colon after the
FIRST digit (`"1230pm"` → `"1:230pm"`), not before the last two. -/

/-- C1 (code bug).  Evaluation of `normalize_time_format` at the claim's
inputs: the code returns `"530m"`, `"1pm"` and `"1:230pm"` where the claim
(and the function's own comment) promises `"5:30pm"`, `"1:00pm"` and a
colon before the final two digits. -/
theorem normalize_time_format_code_bug_eval :
    normalize_time_format "530pm" = "530m" ∧
    normalize_time_format "1pm" = "1pm" ∧
    normalize_time_format "1230pm" = "1:230pm" := by decide

/-! ### C4: the §8 scenario -/

/-- C4.  On the scenario field mapping, the minute-precision parse of the
composed string `"6.4.24 1PM"` fails, the hour-only fallback succeeds, and
the built event carries exactly the claimed title, location, start and
end. -/
theorem sample_scenario_event :
    strptimeMinute ("6.4.24 1PM".data) = none ∧
    strptimeHour ("6.4.24 1PM".data) = some ⟨2024, 6, 4, 13, 0⟩ ∧
    create_event sampleDetails = some sampleEvent ∧
    sampleEvent.summary = "ros 15104144644 John Hornung" ∧
    sampleEvent.location = "2835 Buena Vista Way, Berkeley, CA 94708" ∧
    sampleEvent.startTime.dateTime = "2024-06-04T13:00:00" ∧
    sampleEvent.endTime.dateTime = "2024-06-04T14:00:00" := by decide

/-! ### C2: fixed 60-minute duration, fixed timezone -/

/-- C2.  Every event the builder constructs has
`end = start + 60 minutes` and both endpoints carry the constant
`America/Los_Angeles` timezone. -/
theorem create_event_duration_60min (d : List (String × String))
    (ev : GCalEvent) (h : create_event d = some ev) :
    ∃ dt : PyDateTime,
      ev.startTime = ⟨isoformat dt, "America/Los_Angeles"⟩ ∧
      ev.endTime = ⟨isoformat (addMinutes dt 60), "America/Los_Angeles"⟩ := by
  unfold create_event at h
  split at h
  · split at h
    · unfold build_event at h
      split at h
      · rename_i dtm hm
        cases h
        exact ⟨dtm, rfl, rfl⟩
      · split at h
        · rename_i dth hh
          cases h
          exact ⟨dth, rfl, rfl⟩
        · cases h
    · cases h
  · cases h

/-- Witness for C2 at the §8 scenario mapping. -/
theorem create_event_duration_60min_witness :
    ∃ dt : PyDateTime,
      sampleEvent.startTime = ⟨isoformat dt, "America/Los_Angeles"⟩ ∧
      sampleEvent.endTime = ⟨isoformat (addMinutes dt 60), "America/Los_Angeles"⟩ :=
  create_event_duration_60min sampleDetails sampleEvent (by decide)

/-! ### Shared helper lemmas about the builder's completeness check -/

theorem create_event_eq_none_of_not_complete (d : List (String × String))
    (h : nineRequiredPresent d = false) : create_event d = none := by
  simp [create_event, h]

theorem lookup_eq_none_of_keys_ne (d : List (String × String)) (k : String)
    (h : ∀ p ∈ d, p.1 ≠ k) : d.lookup k = none := by
  induction d with
  | nil => rfl
  | cons a t ih =>
    have hk : ¬(k == a.1) = true := by
      simp only [beq_iff_eq]
      exact fun he => h a (List.mem_cons_self a t) (he ▸ rfl)
    simp only [List.lookup, Bool.not_eq_true] at hk ⊢
    rw [hk]
    exact ih fun p hp => h p (List.mem_cons_of_mem a hp)

theorem not_complete_of_lookup_none (d : List (String × String)) (f : String)
    (hf : f ∈ required_fields) (hl : d.lookup f = none) :
    nineRequiredPresent d = false := by
  rw [← Bool.not_eq_true]
  intro hall
  have := List.all_eq_true.mp hall f hf
  rw [hl] at this
  simp at this

theorem processBlocks_append (oracle : String → ApiOutcome)
    (l₁ l₂ : List String) :
    processBlocks oracle (l₁ ++ l₂) =
      processBlocks oracle l₁ ++ processBlocks oracle l₂ := by
  induction l₁ with
  | nil => rfl
  | cons b t ih =>
    show processBlocks oracle (b :: (t ++ l₂)) = _
    rw [processBlocks, processBlocks]
    cases processBlock1 oracle b <;> simp [ih]

/-! ### C5: incomplete field mapping → no event, batch continues -/

/-- C5.  A mapping missing any of the nine required keys makes
`create_event` return early (`none`, so no gateway call), and the driver
loop processes the surrounding blocks exactly as if the bad block were
absent. -/
theorem incomplete_fields_skip (d : List (String × String))
    (h : ∃ f, f ∈ required_fields ∧ d.lookup f = none) :
    create_event d = none ∧
    ∀ (oracle : String → ApiOutcome) (b : String) (pre post : List String),
      (parse_event_details_with_openai (oracle (pyStripStr b))).1 = d →
      processBlocks oracle (pre ++ b :: post) =
        processBlocks oracle pre ++ processBlocks oracle post := by
  obtain ⟨f, hf, hl⟩ := h
  have hnone : create_event d = none :=
    create_event_eq_none_of_not_complete d (not_complete_of_lookup_none d f hf hl)
  refine ⟨hnone, fun oracle b pre post hb => ?_⟩
  have hb1 : processBlock1 oracle b = none := by
    rw [processBlock1, hb]
    split
    · rfl
    · exact hnone
  rw [processBlocks_append, processBlocks, hb1]

/-- Witness for C5: a reply missing `Phone` yields an 8-key mapping, the
builder rejects it, and the two neighbouring blocks are processed as if it
were not there. -/
theorem incomplete_fields_skip_witness :
    create_event (parse_reply "Event Date: 6.4.24\nEvent Time: 1pm\nName: N\nAddress: A\nCity: B\nState: CA\nZip Code: 94708\nDescription: D") = none ∧
    ∀ (oracle : String → ApiOutcome) (b : String) (pre post : List String),
      (parse_event_details_with_openai (oracle (pyStripStr b))).1 =
        parse_reply "Event Date: 6.4.24\nEvent Time: 1pm\nName: N\nAddress: A\nCity: B\nState: CA\nZip Code: 94708\nDescription: D" →
      processBlocks oracle (pre ++ b :: post) =
        processBlocks oracle pre ++ processBlocks oracle post :=
  incomplete_fields_skip _ ⟨"Phone", by decide, by decide⟩

/-! ### C6: the extractor can silently return a partial mapping -/

/-- Counterexample to C6 as stated: on the reply `"Phone: 123"` the
extractor returns a non-empty mapping that lacks eight of the nine
required fields, with no incompleteness signal (its only failure signal is
an empty mapping). -/
theorem extractor_incomplete_reply_cex :
    ¬(nineRequiredPresent
        (parse_event_details_with_openai (ApiOutcome.reply "Phone: 123")).1 = true ∨
      (parse_event_details_with_openai (ApiOutcome.reply "Phone: 123")).1 = []) := by
  decide

/-- C6 as amended.  The extractor itself may hand back a partial mapping
while signalling success, but the Event Builder's re-validation guarantees
that any mapping lacking one of the nine required fields produces no
event: for every collaborator outcome, the returned mapping either
contains all nine required fields or `create_event` refuses it. -/
theorem extractor_completeness_guarded (o : ApiOutcome) :
    nineRequiredPresent (parse_event_details_with_openai o).1 = true ∨
    create_event (parse_event_details_with_openai o).1 = none := by
  rcases hc : nineRequiredPresent (parse_event_details_with_openai o).1 with _ | _
  · exact Or.inr (create_event_eq_none_of_not_complete _ hc)
  · exact Or.inl rfl

/-! ### C7: collaborator failures degrade to an empty mapping -/

/-- C7.  A rate-limit or invalid-request failure of the collaborator call
makes the extractor return an empty mapping together with a printed
diagnostic; the (total) function returns normally, so the failure never
propagates as a crash. -/
theorem extractor_api_failure_empty :
    (parse_event_details_with_openai ApiOutcome.rateLimit).1 = [] ∧
    (parse_event_details_with_openai ApiOutcome.rateLimit).2 =
      ["Rate limit exceeded. Please wait and try again later."] ∧
    ∀ e : String,
      (parse_event_details_with_openai (ApiOutcome.invalidRequest e)).1 = [] ∧
      (parse_event_details_with_openai (ApiOutcome.invalidRequest e)).2 =
        ["Invalid request error: " ++ e] :=
  ⟨rfl, rfl, fun _ => ⟨rfl, rfl⟩⟩

/-! ### C10: the required keys are the spaced strings -/

/-- The space-free field names of the spec's data model. -/
def spaceFreeNames : List String :=
  ["EventDate", "EventTime", "Phone", "Name", "Address", "City", "State",
   "ZipCode", "Description"]

/-- C10.  The completeness check uses exactly the spaced key strings, and
any mapping whose keys all come from the space-free spelling (EventDate,
EventTime, ZipCode, …) is rejected as incomplete: no event is created. -/
theorem required_fields_exact_keys (d : List (String × String))
    (h : ∀ p ∈ d, p.1 ∈ spaceFreeNames) :
    required_fields =
      ["Event Date", "Event Time", "Phone", "Name", "Address", "City",
       "State", "Zip Code", "Description"] ∧
    create_event d = none := by
  refine ⟨rfl, ?_⟩
  have hl : d.lookup "Event Date" = none := by
    refine lookup_eq_none_of_keys_ne d _ fun p hp he => ?_
    have := h p hp
    rw [he] at this
    simp [spaceFreeNames] at this
  exact create_event_eq_none_of_not_complete d
    (not_complete_of_lookup_none d "Event Date" (by decide) hl)

/-- Witness for C10: a fully populated mapping in the space-free spelling
is still rejected. -/
theorem required_fields_exact_keys_witness :
    required_fields =
      ["Event Date", "Event Time", "Phone", "Name", "Address", "City",
       "State", "Zip Code", "Description"] ∧
    create_event
      [("EventDate", "6.4.24"), ("EventTime", "1pm"), ("Phone", "15104144644"),
       ("Name", "John Hornung"), ("Address", "2835 Buena Vista Way"),
       ("City", "Berkeley"), ("State", "CA"), ("ZipCode", "94708"),
       ("Description", "Roof replacement")] = none :=
  required_fields_exact_keys _ (by decide)

/-! ### Lemmas about the anchor-matching primitives -/

theorem takeDigits_append (l : List Char) :
    (takeDigits l).1 ++ (takeDigits l).2 = l := by
  induction l with
  | nil => rfl
  | cons c cs ih =>
    rw [takeDigits]
    split
    · simpa using ih
    · rfl

theorem takeDigits_digits (l : List Char) :
    ∀ c ∈ (takeDigits l).1, c.isDigit = true := by
  induction l with
  | nil => intro c hc; simp [takeDigits] at hc
  | cons a as ih =>
    intro c hc
    rw [takeDigits] at hc
    split at hc
    · rcases List.mem_cons.mp hc with rfl | hmem
      · assumption
      · exact ih c hmem
    · simp at hc

theorem takeDigits_exact (d : List Char) (c₀ : Char) (t : List Char)
    (hd : ∀ c ∈ d, c.isDigit = true) (hc : c₀.isDigit = false) :
    takeDigits (d ++ c₀ :: t) = (d, c₀ :: t) := by
  induction d with
  | nil =>
    rw [List.nil_append, takeDigits, if_neg]
    rw [hc]
    simp
  | cons a as ih =>
    have ha : a.isDigit = true := hd a (List.mem_cons_self a as)
    rw [List.cons_append, takeDigits, if_pos ha,
      ih fun c hcm => hd c (List.mem_cons_of_mem a hcm)]

theorem parseDigits1_some (l d r : List Char)
    (h : parseDigits1 l = some (d, r)) :
    l = d ++ r ∧ d ≠ [] ∧ (∀ c ∈ d, c.isDigit = true) := by
  unfold parseDigits1 at h
  split at h
  · cases h
  · rename_i hne
    have h2 : takeDigits l = (d, r) := Option.some.inj h
    have hd : (takeDigits l).1 = d := congrArg Prod.fst h2
    have hr : (takeDigits l).2 = r := congrArg Prod.snd h2
    subst hd hr
    refine ⟨(takeDigits_append l).symm, ?_, takeDigits_digits l⟩
    intro hnil
    rw [hnil] at hne
    simp at hne

theorem parseDigits1_exact (d : List Char) (c₀ : Char) (t : List Char)
    (hd : ∀ c ∈ d, c.isDigit = true) (hne : d ≠ []) (hc : c₀.isDigit = false) :
    parseDigits1 (d ++ c₀ :: t) = some (d, c₀ :: t) := by
  unfold parseDigits1
  rw [takeDigits_exact d c₀ t hd hc]
  simp [List.isEmpty_iff, hne]

theorem parseChar_some (x : Char) (l r : List Char)
    (h : parseChar x l = some r) : l = x :: r := by
  cases l with
  | nil => cases h
  | cons c cs =>
    rw [parseChar] at h
    split at h
    · cases h
      rename_i hcx
      rw [hcx]
    · cases h

theorem expectLit_some (pat : List Char) :
    ∀ l r : List Char, expectLit pat l = some r → l = pat ++ r := by
  induction pat with
  | nil => intro l r h; cases h; rfl
  | cons p ps ih =>
    intro l r h
    cases l with
    | nil => cases h
    | cons c cs =>
      rw [expectLit] at h
      split at h
      · rename_i hcp
        rw [List.cons_append, hcp, ih cs r h]
      · cases h

theorem expectLit_self (pat : List Char) :
    ∀ t : List Char, expectLit pat (pat ++ t) = some t := by
  induction pat with
  | nil => intro t; rfl
  | cons p ps ih => intro t; rw [List.cons_append, expectLit, if_pos rfl, ih]

theorem parseChar_cons (x c : Char) (cs : List Char) (h : c = x) :
    parseChar x (c :: cs) = some cs := by
  rw [parseChar, if_pos h]

theorem parseDigits1_before_booked (d : List Char) (t : List Char)
    (hd : ∀ c ∈ d, c.isDigit = true) (hne : d ≠ []) :
    parseDigits1 (d ++ (bookedLit ++ t)) = some (d, bookedLit ++ t) := by
  have hb : bookedLit ++ t = ' ' :: (['B', 'o', 'o', 'k', 'e', 'd'] ++ t) := rfl
  rw [hb, parseDigits1_exact d ' ' _ hd hne (by decide)]

/-- Matching the anchor is insensitive to what follows the matched text:
if the anchor matches at the head of `l` producing `(m, r)`, then for any
tail `t` it matches `m ++ t` producing `(m, t)`; moreover `l = m ++ r` and
the match is non-empty. -/
theorem matchAnchorAt_some (l m r : List Char)
    (h : matchAnchorAt l = some (m, r)) :
    l = m ++ r ∧ m ≠ [] ∧ ∀ t, matchAnchorAt (m ++ t) = some (m, t) := by
  unfold matchAnchorAt at h
  simp only [Option.bind_eq_some] at h
  obtain ⟨p1, hp1, r2, hr2, p2, hp2, r4, hr4, p3, hp3, r6, hb6, hfin⟩ := h
  obtain ⟨hm, hr⟩ := Prod.mk.injEq .. ▸ Option.some.inj hfin
  obtain ⟨d1, r1⟩ := p1
  obtain ⟨d2, r3⟩ := p2
  obtain ⟨d3, r5⟩ := p3
  dsimp only at hm hr hr2 hr4 hb6
  subst hm hr
  obtain ⟨hl1, hd1ne, hd1dig⟩ := parseDigits1_some l d1 r1 hp1
  have hr1 : r1 = '.' :: r2 := parseChar_some '.' r1 r2 hr2
  obtain ⟨hl2, hd2ne, hd2dig⟩ := parseDigits1_some r2 d2 r3 hp2
  have hr3 : r3 = '.' :: r4 := parseChar_some '.' r3 r4 hr4
  obtain ⟨hl3, hd3ne, hd3dig⟩ := parseDigits1_some r4 d3 r5 hp3
  have hr5 : r5 = bookedLit ++ r6 := expectLit_some bookedLit r5 r6 hb6
  subst hl1 hr1 hl2 hr3 hl3 hr5
  refine ⟨by simp, ?_, ?_⟩
  · simp [hd1ne]
  · intro t
    have e1 : (d1 ++ '.' :: (d2 ++ '.' :: (d3 ++ bookedLit))) ++ t =
        d1 ++ '.' :: (d2 ++ '.' :: (d3 ++ (bookedLit ++ t))) := by simp
    rw [e1]
    unfold matchAnchorAt
    rw [parseDigits1_exact d1 '.' _ hd1dig hd1ne (by decide), Option.some_bind]
    dsimp only
    rw [parseChar_cons '.' '.' _ rfl, Option.some_bind,
      parseDigits1_exact d2 '.' _ hd2dig hd2ne (by decide), Option.some_bind]
    dsimp only
    rw [parseChar_cons '.' '.' _ rfl, Option.some_bind,
      parseDigits1_before_booked d3 t hd3dig hd3ne, Option.some_bind]
    dsimp only
    rw [expectLit_self bookedLit t, Option.some_bind]

/-- Specification of the leftmost anchor search. -/
theorem findAnchor_spec (l : List Char) :
    ∀ b m r : List Char, findAnchor l = some (b, m, r) →
      l = b ++ m ++ r ∧ m ≠ [] ∧ ∀ t, matchAnchorAt (m ++ t) = some (m, t) := by
  induction l with
  | nil => intro b m r h; cases h
  | cons c cs ih =>
    intro b m r h
    rw [findAnchor] at h
    split at h
    · rename_i m' r' hma
      injection h with h'
      injection h' with hb h''
      injection h'' with hm hr
      subst hb hm hr
      obtain ⟨h1, h2, h3⟩ := matchAnchorAt_some (c :: cs) m' r' hma
      exact ⟨by simpa using h1, h2, h3⟩
    · split at h
      · rename_i b' m' r' hfa
        injection h with h'
        injection h' with hb h''
        injection h'' with hm hr
        subst hb hm hr
        obtain ⟨ih1, ih2, ih3⟩ := ih b' m' r' hfa
        refine ⟨?_, ih2, ih3⟩
        rw [List.cons_append, List.cons_append, ← ih1]
      · cases h

/-- The remainder after the first anchor is strictly shorter than the
input. -/
theorem findAnchor_shrinks (l b m r : List Char)
    (h : findAnchor l = some (b, m, r)) : r.length < l.length := by
  obtain ⟨h1, h2, _⟩ := findAnchor_spec l b m r h
  subst h1
  have := List.length_pos.mpr h2
  simp [List.length_append]
  omega

theorem reSplitAnchorF_succ_none (f : Nat) (l : List Char)
    (h : findAnchor l = none) : reSplitAnchorF (f + 1) l = [l] := by
  rw [reSplitAnchorF, h]

theorem reSplitAnchorF_succ_some (f : Nat) (l b m r : List Char)
    (h : findAnchor l = some (b, m, r)) :
    reSplitAnchorF (f + 1) l = b :: m :: reSplitAnchorF f r := by
  rw [reSplitAnchorF, h]

theorem countAnchorsF_succ_none (f : Nat) (l : List Char)
    (h : findAnchor l = none) : countAnchorsF (f + 1) l = 0 := by
  rw [countAnchorsF, h]

theorem countAnchorsF_succ_some (f : Nat) (l b m r : List Char)
    (h : findAnchor l = some (b, m, r)) :
    countAnchorsF (f + 1) l = countAnchorsF f r + 1 := by
  rw [countAnchorsF, h]

/-- The fuel of `reSplitAnchorF` is irrelevant once it exceeds the input
length. -/
theorem reSplitAnchorF_congr :
    ∀ f₁ f₂ l, l.length < f₁ → l.length < f₂ →
      reSplitAnchorF f₁ l = reSplitAnchorF f₂ l := by
  intro f₁
  induction f₁ with
  | zero => intro f₂ l h; omega
  | succ f ihf =>
    intro f₂ l h1 h2
    cases f₂ with
    | zero => omega
    | succ g =>
      cases hf : findAnchor l with
      | none => rw [reSplitAnchorF_succ_none f l hf, reSplitAnchorF_succ_none g l hf]
      | some bmr =>
        obtain ⟨b, m, r⟩ := bmr
        have hr := findAnchor_shrinks l b m r hf
        rw [reSplitAnchorF_succ_some f l b m r hf,
          reSplitAnchorF_succ_some g l b m r hf,
          ihf g r (by omega) (by omega)]

/-- Invariant of the glued-blocks list: gluing a fresh anchor `m` onto the
split of `l` yields `countAnchors l + 1` blocks, each starting with an
anchor match, whose concatenation is `m ++ l`. -/
theorem pairJoin_blocks :
    ∀ (fuel : Nat) (l m : List Char), l.length < fuel →
      (∀ t, matchAnchorAt (m ++ t) = some (m, t)) →
      (pairJoin (m :: reSplitAnchorF fuel l)).length = countAnchorsF fuel l + 1 ∧
      (∀ b ∈ pairJoin (m :: reSplitAnchorF fuel l),
        (matchAnchorAt b).isSome = true) ∧
      joinAll (pairJoin (m :: reSplitAnchorF fuel l)) = m ++ l := by
  intro fuel
  induction fuel with
  | zero => intro l m h; omega
  | succ f ihf =>
    intro l m hlen hm
    cases hf : findAnchor l with
    | none =>
      rw [reSplitAnchorF_succ_none f l hf, countAnchorsF_succ_none f l hf]
      refine ⟨rfl, ?_, by simp [pairJoin, joinAll]⟩
      intro x hx
      rw [pairJoin] at hx
      rcases List.mem_singleton.mp hx with rfl
      rw [hm l]
      rfl
    | some bmr =>
      obtain ⟨b, m', r⟩ := bmr
      obtain ⟨hl, hm'ne, hm'⟩ := findAnchor_spec l b m' r hf
      have hr : r.length < f := by
        have := findAnchor_shrinks l b m' r hf
        omega
      obtain ⟨ih1, ih2, ih3⟩ := ihf r m' hr hm'
      rw [reSplitAnchorF_succ_some f l b m' r hf,
        countAnchorsF_succ_some f l b m' r hf, pairJoin]
      refine ⟨?_, ?_, ?_⟩
      · rw [List.length_cons, ih1]
      · intro x hx
        rcases List.mem_cons.mp hx with rfl | hmem
        · rw [hm b]; rfl
        · exact ih2 x hmem
      · show (m ++ b) ++ joinAll (pairJoin (m' :: reSplitAnchorF f r)) = m ++ l
        rw [ih3, hl]
        simp

/-- When the input contains an anchor, the blocks are the anchors glued to
their following text. -/
theorem event_blocks_some (l b m r : List Char)
    (hf : findAnchor l = some (b, m, r)) :
    event_blocks l = pairJoin (m :: reSplitAnchorF l.length r) := by
  unfold event_blocks reSplitAnchor
  rw [reSplitAnchorF_succ_some l.length l b m r hf, if_pos (by simp)]
  rfl

/-! ### C3: K anchors → K blocks, each anchored, order preserved -/

/-- C3.  If the raw input contains `K ≥ 1` occurrences of the anchor
pattern `\d+\.\d+\.\d+ Booked`, the splitter yields exactly `K` blocks,
each starting with its own anchor match, and their concatenation is a
suffix of the input (order preserved); with no anchor, the whole input is
the single block. -/
theorem block_splitter_counts (l : List Char) :
    (1 ≤ countAnchors l →
      (event_blocks l).length = countAnchors l ∧
      (∀ b ∈ event_blocks l, (matchAnchorAt b).isSome = true) ∧
      ∃ pre, l = pre ++ joinAll (event_blocks l)) ∧
    (countAnchors l = 0 → event_blocks l = [l]) := by
  cases hf : findAnchor l with
  | none =>
    have hc : countAnchors l = 0 := countAnchorsF_succ_none l.length l hf
    have hs : reSplitAnchor l = [l] := by
      unfold reSplitAnchor
      exact reSplitAnchorF_succ_none l.length l hf
    constructor
    · intro h1
      rw [hc] at h1
      omega
    · intro _
      unfold event_blocks
      rw [hs]
      rfl
  | some bmr =>
    obtain ⟨b, m, r⟩ := bmr
    obtain ⟨hl, hmne, hmctx⟩ := findAnchor_spec l b m r hf
    have hrlen : r.length < l.length := findAnchor_shrinks l b m r hf
    have hc : countAnchors l = countAnchorsF l.length r + 1 :=
      countAnchorsF_succ_some l.length l b m r hf
    have hev := event_blocks_some l b m r hf
    obtain ⟨p1, p2, p3⟩ := pairJoin_blocks l.length r m hrlen hmctx
    constructor
    · intro _
      refine ⟨by rw [hev, p1, hc], ?_, ⟨b, ?_⟩⟩
      · rw [hev]
        exact p2
      · rw [hev, p3, hl]
        simp
    · intro h0
      rw [hc] at h0
      omega

/-- Witness for C3: a two-anchor input yields exactly its two anchored
blocks; an anchor-free input is one block. -/
theorem block_splitter_counts_witness :
    (1 ≤ countAnchors ("1.2.3 Booked A 4.5.6 Booked B".data) ∧
      countAnchors ("1.2.3 Booked A 4.5.6 Booked B".data) = 2 ∧
      ((event_blocks ("1.2.3 Booked A 4.5.6 Booked B".data)).length =
        countAnchors ("1.2.3 Booked A 4.5.6 Booked B".data) ∧
       (∀ b ∈ event_blocks ("1.2.3 Booked A 4.5.6 Booked B".data),
         (matchAnchorAt b).isSome = true) ∧
       ∃ pre, "1.2.3 Booked A 4.5.6 Booked B".data =
         pre ++ joinAll (event_blocks ("1.2.3 Booked A 4.5.6 Booked B".data)))) ∧
    (countAnchors ("no anchors here".data) = 0 ∧
      event_blocks ("no anchors here".data) = ["no anchors here".data]) :=
  ⟨⟨by decide, by decide,
      (block_splitter_counts ("1.2.3 Booked A 4.5.6 Booked B".data)).1 (by decide)⟩,
   ⟨by decide,
      (block_splitter_counts ("no anchors here".data)).2 (by decide)⟩⟩

/-! ### C9: text before the first anchor is dropped -/

/-- C9.  When the input contains an anchor, the text `b` before the first
anchor is discarded: the blocks concatenate to exactly the input from the
first anchor on, and the block list (hence everything later sent to the
extractor and the gateway) is the same as if `b` were not there. -/
theorem pre_anchor_text_discarded (l b m r : List Char)
    (h : findAnchor l = some (b, m, r)) :
    l = b ++ m ++ r ∧
    joinAll (event_blocks l) = m ++ r ∧
    event_blocks l = event_blocks (m ++ r) := by
  obtain ⟨hl, hmne, hmctx⟩ := findAnchor_spec l b m r h
  have hrlen : r.length < l.length := findAnchor_shrinks l b m r h
  have hev := event_blocks_some l b m r h
  obtain ⟨p1, p2, p3⟩ := pairJoin_blocks l.length r m hrlen hmctx
  have hfmr : findAnchor (m ++ r) = some ([], m, r) := by
    cases m with
    | nil => exact absurd rfl hmne
    | cons c cs =>
      have hmm : matchAnchorAt (c :: (cs ++ r)) = some (c :: cs, r) := by
        have := hmctx r
        simpa using this
      rw [List.cons_append, findAnchor, hmm]
  have hev2 := event_blocks_some (m ++ r) [] m r hfmr
  have hfuel : reSplitAnchorF (m ++ r).length r = reSplitAnchorF l.length r := by
    refine reSplitAnchorF_congr _ _ r ?_ (by omega)
    have := List.length_pos.mpr hmne
    simp [List.length_append]
    omega
  refine ⟨hl, by rw [hev, p3], ?_⟩
  rw [hev, hev2, hfuel]

/-- Witness for C9 at a concrete input with junk before the anchor. -/
theorem pre_anchor_text_discarded_witness :
    "hello 6.4.24 Booked x".data =
      "hello ".data ++ "6.4.24 Booked".data ++ " x".data ∧
    joinAll (event_blocks ("hello 6.4.24 Booked x".data)) =
      "6.4.24 Booked".data ++ " x".data ∧
    event_blocks ("hello 6.4.24 Booked x".data) =
      event_blocks ("6.4.24 Booked".data ++ " x".data) :=
  pre_anchor_text_discarded _ _ _ _ (by decide)

end GCalBot
